import Mathlib

/-!
Shallow embedding of the polygon-editor core of samclaus/lyra-challenge-react.

The state machine is translated from src/Editor.tsx: the Mobx EditorState
class together with the drag ref and the SVG event handlers svgMouseDown,
svgMouseUp, svgMouseClick, svgMouseMove and svgMouseLeave. Coordinates are
modelled as exact rationals. The geometry module (geometry.ts) is not part
of the sources available here; its two functions are modelled from the
specification text and are marked as such.
-/

namespace LyraEditor

/-- Point is an ordered pair of coordinates in canvas space. -/
abbrev Point : Type := ℚ × ℚ

/-- Polygon is an ordered sequence of points forming a closed loop. -/
abbrev Polygon : Type := List Point

/-- Tool is the enumeration of all available tools for the editor,
from the Tool union type in Editor.tsx. -/
inductive Tool where
  | select
  | move
  | closestPoints
  | triangle
  | square
  | hexagon
deriving DecidableEq, Repr

/-- BASE_POLYGONS from Editor.tsx: base template polygon per shape tool;
non-shape tools have no entry. -/
def BASE_POLYGONS : Tool → Option Polygon
  | Tool.triangle => some [(30, 0), (60, 45), (0, 45)]
  | Tool.square => some [(0, 0), (50, 0), (50, 50), (0, 50)]
  | Tool.hexagon => some [(60, 26), (45, 52), (15, 52), (0, 26), (15, 0), (45, 0)]
  | _ => none

/-- Modelled from the spec: clonePolygon from geometry.ts (not under src/)
produces a deep copy equal to its argument by value. Over immutable Lean
lists a per-vertex structural copy is the identity on values. -/
def clonePolygon (p : Polygon) : Polygon :=
  p.map (fun v => (v.1, v.2))

/-- Squared Euclidean distance between two points. Comparing squared
distances orders candidates exactly as comparing Euclidean distances. -/
def distSq (a b : Point) : ℚ :=
  (a.1 - b.1) ^ 2 + (a.2 - b.2) ^ 2

/-- Modelled from the spec: projection-and-clamp closest point of target on
the finite segment from a to b (geometry.ts is not under src/). The
projection parameter is clamped to the unit interval; a degenerate segment
yields its endpoint since division by a zero squared length gives zero. -/
def closestPointOnSegment (a b target : Point) : Point :=
  let dx := b.1 - a.1
  let dy := b.2 - a.2
  let lenSq := dx ^ 2 + dy ^ 2
  let t := ((target.1 - a.1) * dx + (target.2 - a.2) * dy) / lenSq
  let tc := max 0 (min 1 t)
  (a.1 + tc * dx, a.2 + tc * dy)

/-- Cyclic edge list of a polygon: vertex i paired with vertex (i+1) mod n.
A single-vertex polygon has the single degenerate edge (v, v). -/
def polygonEdges (poly : Polygon) : List (Point × Point) :=
  match poly with
  | [] => []
  | v :: rest => poly.zip (rest ++ [v])

/-- Candidate closest points of the target on each cyclic boundary edge. -/
def edgeCandidates (poly : Polygon) (target : Point) : List Point :=
  (polygonEdges poly).map (fun e => closestPointOnSegment e.1 e.2 target)

/-- Keep the running best candidate, replacing it only when a strictly
closer candidate appears, so the first candidate achieving the minimum
distance wins ties. -/
def trackMin (target best : Point) : List Point → Point
  | [] => best
  | c :: rest =>
    if distSq c target < distSq best target then trackMin target c rest
    else trackMin target best rest

/-- Modelled from the spec: closestPointOnSimplePolygonToTarget from
geometry.ts (not under src/): the candidate of minimum Euclidean distance
to the target among the projection-and-clamp closest points on each cyclic
boundary edge, first edge winning ties; a single-vertex polygon yields that
vertex via its degenerate edge. The empty polygon is outside the input
contract and returns the target. -/
def closestPointOnSimplePolygonToTarget (poly : Polygon) (target : Point) : Point :=
  match edgeCandidates poly target with
  | [] => target
  | c :: rest => trackMin target c rest

/-- DragState from Editor.tsx: index of the dragged polygon and the deep
copy of its vertices relative to the pointer at drag start. -/
structure DragState where
  polyIndex : Int
  relCoords : Polygon
deriving DecidableEq, Repr

/-- EditorState from Editor.tsx, combined with the dragState ref that the
Editor component keeps beside it. -/
structure EditorState where
  activeTool : Tool
  polygons : List Polygon
  selectedIndex : Int
  mouseCoordsInSVG : Option Point
  dragState : Option DragState
deriving DecidableEq, Repr

/-- Initial editor state: default tool is triangle, no polygons, no
selection, no pointer position, no drag. -/
def initialState : EditorState :=
  { activeTool := Tool.triangle
    polygons := []
    selectedIndex := -1
    mouseCoordsInSVG := none
    dragState := none }

/-- EditorState.setActiveTool from Editor.tsx: set the tool; when the new
tool is not the select tool also clear the selection. -/
def setActiveTool (s : EditorState) (tool : Tool) : EditorState :=
  let s1 := { s with activeTool := tool }
  if tool ≠ Tool.select then { s1 with selectedIndex := -1 } else s1

/-- Derived getter addPolyPreview from Editor.tsx: the base template of the
active shape tool translated by the current pointer position; absent for
non-shape tools or an absent pointer. -/
def addPolyPreview (s : EditorState) : Option Polygon :=
  match s.mouseCoordsInSVG with
  | some m => (BASE_POLYGONS s.activeTool).map (fun base =>
      base.map (fun v => (v.1 + m.1, v.2 + m.2)))
  | none => none

/-- Derived getter closestPoints from Editor.tsx: one closest boundary
point per polygon, only under the closest-points tool with the pointer
present. -/
def closestPoints (s : EditorState) : List Point :=
  match s.mouseCoordsInSVG with
  | some m =>
    if s.activeTool = Tool.closestPoints then
      s.polygons.map (fun poly => closestPointOnSimplePolygonToTarget poly m)
    else []
  | none => []

/-- svgMouseDown from Editor.tsx: under the move tool, with a hit polygon
index that is a valid index and event mouse coordinates present, begin a
drag recording each vertex relative to the mouse; with coordinates absent,
clear any existing drag instead. -/
def svgMouseDown (s : EditorState) (index : Int) (mouseCoords : Option Point) : EditorState :=
  if s.activeTool = Tool.move then
    if 0 ≤ index ∧ index < (s.polygons.length : Int) then
      let poly := s.polygons.getD index.toNat []
      match mouseCoords with
      | some m =>
        let rel := poly.map (fun v => (v.1 - m.1, v.2 - m.2))
        { s with dragState := some ⟨index, rel⟩ }
      | none => { s with dragState := none }
    else s
  else s

/-- svgMouseUp from Editor.tsx: unconditionally stop any drag operation. -/
def svgMouseUp (s : EditorState) : EditorState :=
  { s with dragState := none }

/-- svgMouseClick from Editor.tsx: under the select tool a nonnegative hit
index becomes the selection; otherwise, when the placement preview is
present, a deep copy of it is pushed onto the polygon array. -/
def svgMouseClick (s : EditorState) (index : Int) : EditorState :=
  if s.activeTool = Tool.select then
    if 0 ≤ index then { s with selectedIndex := index } else s
  else
    match addPolyPreview s with
    | some preview => { s with polygons := s.polygons ++ [clonePolygon preview] }
    | none => s

/-- Functional form of the in-place vertex loop in svgMouseMove: the first
min(len(relCoords), len(poly)) vertices become relCoords[i] + m, the rest
keep their values. -/
def dragPolyUpdate (relCoords poly : Polygon) (m : Point) : Polygon :=
  let len := min relCoords.length poly.length
  (relCoords.take len).map (fun v => (v.1 + m.1, v.2 + m.2)) ++ poly.drop len

/-- svgMouseMove from Editor.tsx: record the event mouse coordinates; then,
under the move tool with an active drag and present coordinates and a drag
index still in range, rewrite the dragged polygon's vertices from the
stored relative coordinates. -/
def svgMouseMove (s : EditorState) (coords : Option Point) : EditorState :=
  let s1 := { s with mouseCoordsInSVG := coords }
  match coords with
  | some m =>
    if s1.activeTool = Tool.move then
      match s1.dragState with
      | some d =>
        if 0 ≤ d.polyIndex ∧ d.polyIndex < (s1.polygons.length : Int) then
          let j := d.polyIndex.toNat
          let newPoly := dragPolyUpdate d.relCoords (s1.polygons.getD j []) m
          { s1 with polygons := s1.polygons.set j newPoly }
        else s1
      | none => s1
    else s1
  | none => s1

/-- svgMouseLeave from Editor.tsx: stop any drag operation and clear the
mouse coordinates. -/
def svgMouseLeave (s : EditorState) : EditorState :=
  { s with dragState := none, mouseCoordsInSVG := none }

/-- Operations of the editor state machine, as delivered by the
interaction driver. Pointer-carrying events supply the coordinates that
getMouseCoordinatesInSVG extracts from the raw event (absent when the SVG
element is unavailable or the pointer is outside). -/
inductive Op where
  | setActiveTool (tool : Tool)
  | pointerMove (coords : Option Point)
  | pointerDown (index : Int) (coords : Option Point)
  | pointerUp
  | pointerLeave
  | click (index : Int)

/-- One transition of the editor state machine. -/
def step (s : EditorState) : Op → EditorState
  | Op.setActiveTool t => setActiveTool s t
  | Op.pointerMove c => svgMouseMove s c
  | Op.pointerDown i c => svgMouseDown s i c
  | Op.pointerUp => svgMouseUp s
  | Op.pointerLeave => svgMouseLeave s
  | Op.click i => svgMouseClick s i

/-- Run a sequence of operations from a state. -/
def applyOps (s : EditorState) (ops : List Op) : EditorState :=
  ops.foldl step s

/-- The selection invariant stated by the specification: selectedIndex is
-1 or a valid index into polygons. -/
def selValid (s : EditorState) : Prop :=
  s.selectedIndex = -1 ∨ (0 ≤ s.selectedIndex ∧ s.selectedIndex < (s.polygons.length : Int))

instance (s : EditorState) : Decidable (selValid s) := by
  unfold selValid; infer_instance

/-- Hit-index discipline for a trace: every click carries a hit index below
the polygon count at the moment of the click (negative misses qualify). -/
def validHits (s : EditorState) : List Op → Bool
  | [] => true
  | op :: ops =>
    (match op with
     | Op.click i => decide (i < (s.polygons.length : Int))
     | _ => true) && validHits (step s op) ops

/-! Helper lemmas about lists. -/

lemma getD_set_ne {α : Type} {l : List α} {i j : ℕ} (h : i ≠ j) (x d : α) :
    (l.set i x).getD j d = l.getD j d := by
  simp [List.getD_eq_getElem?_getD, List.getElem?_set_ne h]

lemma getD_set_self {α : Type} {l : List α} {i : ℕ} (h : i < l.length) (x d : α) :
    (l.set i x).getD i d = x := by
  simp [List.getD_eq_getElem?_getD, List.getElem?_set_self h]

lemma set_getD_self {α : Type} (l : List α) (j : ℕ) (d : α) :
    l.set j (l.getD j d) = l := by
  induction l generalizing j with
  | nil => rfl
  | cons a l ih =>
    cases j with
    | zero => rfl
    | succ j => simpa using ih j

/-! Helper lemmas about the drag vertex update. -/

lemma dragPolyUpdate_eq (relCoords poly : Polygon) (m : Point) :
    dragPolyUpdate relCoords poly m
      = (relCoords.take (min relCoords.length poly.length)).map
          (fun v => (v.1 + m.1, v.2 + m.2))
        ++ poly.drop (min relCoords.length poly.length) := rfl

lemma dragPolyUpdate_front_length (relCoords poly : Polygon) (m : Point) :
    ((relCoords.take (min relCoords.length poly.length)).map
      (fun v => (v.1 + m.1, v.2 + m.2))).length = min relCoords.length poly.length := by
  rw [List.length_map, List.length_take]
  omega

lemma dragPolyUpdate_length (relCoords poly : Polygon) (m : Point) :
    (dragPolyUpdate relCoords poly m).length = poly.length := by
  rw [dragPolyUpdate_eq, List.length_append, dragPolyUpdate_front_length, List.length_drop]
  omega

lemma dragPolyUpdate_of_map_sub (poly : Polygon) (p0 p1 : Point) :
    dragPolyUpdate (poly.map (fun v => (v.1 - p0.1, v.2 - p0.2))) poly p1
      = poly.map (fun v => (v.1 + (p1.1 - p0.1), v.2 + (p1.2 - p0.2))) := by
  rw [dragPolyUpdate_eq]
  simp only [List.length_map, Nat.min_self, List.drop_length, List.append_nil]
  rw [List.take_of_length_le (by rw [List.length_map]), List.map_map]
  apply List.map_congr_left
  intro v _
  simp only [Function.comp]
  rw [Prod.mk.injEq]
  constructor <;> ring

lemma dragPolyUpdate_getD_lt (relCoords poly : Polygon) (m : Point) {i : ℕ}
    (hi : i < min relCoords.length poly.length) :
    (dragPolyUpdate relCoords poly m).getD i (0, 0)
      = ((relCoords.getD i (0, 0)).1 + m.1, (relCoords.getD i (0, 0)).2 + m.2) := by
  have hi2 : i < relCoords.length := lt_of_lt_of_le hi (Nat.min_le_left _ _)
  rw [dragPolyUpdate_eq,
    List.getD_append _ _ _ _ (by rw [dragPolyUpdate_front_length]; exact hi),
    List.getD_eq_getElem?_getD, List.getElem?_map, List.getElem?_take, if_pos hi,
    List.getElem?_eq_getElem hi2]
  simp [List.getD_eq_getElem relCoords (0, 0) hi2, List.getElem?_eq_getElem hi2]

lemma dragPolyUpdate_getD_ge (relCoords poly : Polygon) (m : Point) {i : ℕ}
    (hi : min relCoords.length poly.length ≤ i) :
    (dragPolyUpdate relCoords poly m).getD i (0, 0) = poly.getD i (0, 0) := by
  rw [dragPolyUpdate_eq,
    List.getD_append_right _ _ _ _ (by rw [dragPolyUpdate_front_length]; exact hi),
    dragPolyUpdate_front_length]
  rcases Nat.lt_or_ge i poly.length with h | h
  · rw [List.getD_eq_getElem?_getD, List.getElem?_drop]
    have heq : min relCoords.length poly.length
        + (i - min relCoords.length poly.length) = i := by omega
    rw [heq, ← List.getD_eq_getElem?_getD]
  · rw [List.getD_eq_default _ _ (by rw [List.length_drop]; omega),
      List.getD_eq_default _ _ h]

lemma dragPolyUpdate_idem (relCoords poly : Polygon) (m : Point) :
    dragPolyUpdate relCoords (dragPolyUpdate relCoords poly m) m
      = dragPolyUpdate relCoords poly m := by
  have hlen := dragPolyUpdate_length relCoords poly m
  have hfront := dragPolyUpdate_front_length relCoords poly m
  rw [dragPolyUpdate_eq relCoords (dragPolyUpdate relCoords poly m) m, hlen,
    dragPolyUpdate_eq relCoords poly m, List.drop_left' hfront]

/-! Unfolding and frame lemmas for the individual operations. -/

lemma clonePolygon_eq (p : Polygon) : clonePolygon p = p := by
  simp [clonePolygon]

lemma setActiveTool_eq (s : EditorState) (t : Tool) :
    setActiveTool s t =
      { s with activeTool := t,
               selectedIndex := if t = Tool.select then s.selectedIndex else -1 } := by
  unfold setActiveTool
  by_cases h : t = Tool.select <;> simp [h]

lemma svgMouseDown_fields (s : EditorState) (i : Int) (c : Option Point) :
    (svgMouseDown s i c).activeTool = s.activeTool
    ∧ (svgMouseDown s i c).polygons = s.polygons
    ∧ (svgMouseDown s i c).selectedIndex = s.selectedIndex
    ∧ (svgMouseDown s i c).mouseCoordsInSVG = s.mouseCoordsInSVG := by
  unfold svgMouseDown
  repeat' split
  all_goals exact ⟨rfl, rfl, rfl, rfl⟩

lemma svgMouseDown_active_eq (s : EditorState) (k : Int) (m : Point)
    (ht : s.activeTool = Tool.move) (h0 : 0 ≤ k) (hlt : k < (s.polygons.length : Int)) :
    svgMouseDown s k (some m) =
      { s with dragState := some ⟨k,
          (s.polygons.getD k.toNat []).map (fun v => (v.1 - m.1, v.2 - m.2))⟩ } := by
  unfold svgMouseDown
  simp [ht, h0, hlt]

lemma svgMouseMove_fields (s : EditorState) (c : Option Point) :
    (svgMouseMove s c).activeTool = s.activeTool
    ∧ (svgMouseMove s c).selectedIndex = s.selectedIndex
    ∧ (svgMouseMove s c).dragState = s.dragState
    ∧ (svgMouseMove s c).mouseCoordsInSVG = c := by
  cases c <;> unfold svgMouseMove <;> dsimp only <;> repeat' split
  all_goals exact ⟨rfl, rfl, rfl, rfl⟩

lemma svgMouseMove_length (s : EditorState) (c : Option Point) :
    (svgMouseMove s c).polygons.length = s.polygons.length := by
  cases c <;> unfold svgMouseMove <;> dsimp only <;> repeat' split
  all_goals simp

lemma svgMouseMove_polygons_of_dragState_none (s : EditorState) (c : Option Point)
    (hd : s.dragState = none) :
    (svgMouseMove s c).polygons = s.polygons := by
  cases c <;> unfold svgMouseMove <;> dsimp only <;> repeat' split
  all_goals simp_all

lemma svgMouseMove_active_eq (s : EditorState) (d : DragState) (m : Point)
    (ht : s.activeTool = Tool.move) (hd : s.dragState = some d)
    (h0 : 0 ≤ d.polyIndex) (hlt : d.polyIndex < (s.polygons.length : Int)) :
    svgMouseMove s (some m) =
      { s with mouseCoordsInSVG := some m,
               polygons := s.polygons.set d.polyIndex.toNat
                 (dragPolyUpdate d.relCoords (s.polygons.getD d.polyIndex.toNat []) m) } := by
  unfold svgMouseMove
  simp [ht, hd, h0, hlt]

lemma svgMouseMove_inactive_polygons (s : EditorState) (d : DragState) (m : Point)
    (hd : s.dragState = some d)
    (hout : ¬ (0 ≤ d.polyIndex ∧ d.polyIndex < (s.polygons.length : Int))) :
    (svgMouseMove s (some m)).polygons = s.polygons := by
  unfold svgMouseMove
  dsimp only
  by_cases ht : s.activeTool = Tool.move
  · simp only [ht, if_true, hd]
    rw [if_neg hout]
  · simp [ht]

lemma svgMouseMove_eq_of_dragState_none (s : EditorState) (c : Option Point)
    (hd : s.dragState = none) :
    svgMouseMove s c = { s with mouseCoordsInSVG := c } := by
  cases c with
  | none => rfl
  | some m =>
    unfold svgMouseMove
    dsimp only
    rw [hd]
    exact ite_self _

lemma svgMouseMove_eq_of_not_move (s : EditorState) (c : Option Point)
    (ht : s.activeTool ≠ Tool.move) :
    svgMouseMove s c = { s with mouseCoordsInSVG := c } := by
  cases c with
  | none => rfl
  | some m =>
    unfold svgMouseMove
    dsimp only
    rw [if_neg ht]

lemma svgMouseMove_eq_of_out_of_range (s : EditorState) (d : DragState) (m : Point)
    (hd : s.dragState = some d)
    (hout : ¬ (0 ≤ d.polyIndex ∧ d.polyIndex < (s.polygons.length : Int))) :
    svgMouseMove s (some m) = { s with mouseCoordsInSVG := some m } := by
  unfold svgMouseMove
  dsimp only
  by_cases ht : s.activeTool = Tool.move
  · rw [if_pos ht, hd]
    dsimp only
    rw [if_neg hout]
  · rw [if_neg ht]

lemma dragPolyUpdate_restore (poly q : Polygon) (p0 : Point) (hq : q.length = poly.length) :
    dragPolyUpdate (poly.map (fun v => (v.1 - p0.1, v.2 - p0.2))) q p0 = poly := by
  rw [dragPolyUpdate_eq, List.length_map, hq, Nat.min_self, ← hq, List.drop_length,
    List.append_nil, List.take_of_length_le (by rw [List.length_map, hq]), List.map_map]
  have hid : ∀ v ∈ poly,
      ((fun v : Point => (v.1 + p0.1, v.2 + p0.2))
        ∘ (fun v : Point => (v.1 - p0.1, v.2 - p0.2))) v = id v := by
    intro v _
    simp only [Function.comp, id]
    rw [Prod.mk.injEq]
    constructor <;> ring
  rw [List.map_congr_left hid, List.map_id]

lemma svgMouseClick_select_nonneg (s : EditorState) (i : Int)
    (ht : s.activeTool = Tool.select) (h : 0 ≤ i) :
    svgMouseClick s i = { s with selectedIndex := i } := by
  unfold svgMouseClick
  simp [ht, h]

lemma svgMouseClick_select_neg (s : EditorState) (i : Int)
    (ht : s.activeTool = Tool.select) (h : ¬ 0 ≤ i) :
    svgMouseClick s i = s := by
  unfold svgMouseClick
  simp [ht, h]

lemma svgMouseClick_shape (s : EditorState) (i : Int) (q : Polygon)
    (ht : s.activeTool ≠ Tool.select) (hp : addPolyPreview s = some q) :
    svgMouseClick s i = { s with polygons := s.polygons ++ [clonePolygon q] } := by
  unfold svgMouseClick
  simp [ht, hp]

lemma svgMouseClick_nopreview (s : EditorState) (i : Int)
    (ht : s.activeTool ≠ Tool.select) (hp : addPolyPreview s = none) :
    svgMouseClick s i = s := by
  unfold svgMouseClick
  simp [ht, hp]

lemma svgMouseClick_length_mono (s : EditorState) (i : Int) :
    s.polygons.length ≤ (svgMouseClick s i).polygons.length := by
  unfold svgMouseClick
  repeat' split
  all_goals simp

lemma svgMouseClick_selectedIndex_not_select (s : EditorState) (i : Int)
    (ht : s.activeTool ≠ Tool.select) :
    (svgMouseClick s i).selectedIndex = s.selectedIndex := by
  unfold svgMouseClick
  simp only [ht, if_false, ite_false]
  split <;> rfl

lemma addPolyPreview_eq (s : EditorState) (p : Point) (hm : s.mouseCoordsInSVG = some p) :
    addPolyPreview s = (BASE_POLYGONS s.activeTool).map (fun base =>
      base.map (fun v => (v.1 + p.1, v.2 + p.2))) := by
  unfold addPolyPreview
  rw [hm]

lemma BASE_POLYGONS_some_shape {t : Tool} {b : Polygon} (h : BASE_POLYGONS t = some b) :
    t = Tool.triangle ∨ t = Tool.square ∨ t = Tool.hexagon := by
  cases t <;> simp_all [BASE_POLYGONS]

lemma addPolyPreview_some_shape {s : EditorState} {q : Polygon}
    (h : addPolyPreview s = some q) :
    s.activeTool = Tool.triangle ∨ s.activeTool = Tool.square ∨ s.activeTool = Tool.hexagon := by
  unfold addPolyPreview at h
  rcases hm : s.mouseCoordsInSVG with _ | m
  · rw [hm] at h; exact absurd h (by simp)
  · rw [hm] at h
    rcases hb : BASE_POLYGONS s.activeTool with _ | b
    · rw [hb] at h; exact absurd h (by simp)
    · exact BASE_POLYGONS_some_shape hb

/-! Lemmas about the geometry candidate scan. -/

lemma trackMin_cons (t best c : Point) (rest : List Point) :
    trackMin t best (c :: rest) =
      if distSq c t < distSq best t then trackMin t c rest else trackMin t best rest := rfl

lemma trackMin_firstMin (t : Point) (l : List Point) : ∀ best : Point,
    ∃ l1 l2, best :: l = l1 ++ trackMin t best l :: l2
      ∧ (∀ c ∈ l1, distSq (trackMin t best l) t < distSq c t)
      ∧ (∀ c ∈ l2, distSq (trackMin t best l) t ≤ distSq c t) := by
  induction l with
  | nil =>
    intro best
    exact ⟨[], [], rfl, by simp, by simp⟩
  | cons c rest ih =>
    intro best
    by_cases h : distSq c t < distSq best t
    · have hdef : trackMin t best (c :: rest) = trackMin t c rest := by
        rw [trackMin_cons, if_pos h]
      obtain ⟨l1, l2, heq, hlt, hle⟩ := ih c
      refine ⟨best :: l1, l2, ?_, ?_, ?_⟩
      · rw [hdef, List.cons_append, ← heq]
      · intro x hx
        rw [hdef]
        rcases List.mem_cons.mp hx with hxb | hx1
        · have hrc : distSq (trackMin t c rest) t ≤ distSq c t := by
            cases l1 with
            | nil =>
              simp only [List.nil_append] at heq
              injection heq with h1 _
              rw [← h1]
            | cons a l1' =>
              simp only [List.cons_append] at heq
              injection heq with h1 _
              have ha := hlt a (List.mem_cons_self a l1')
              rw [← h1] at ha
              exact le_of_lt ha
          rw [hxb]
          exact lt_of_le_of_lt hrc h
        · exact hlt x hx1
      · intro x hx
        rw [hdef]
        exact hle x hx
    · have hdef : trackMin t best (c :: rest) = trackMin t best rest := by
        rw [trackMin_cons, if_neg h]
      push_neg at h
      obtain ⟨l1, l2, heq, hlt, hle⟩ := ih best
      cases l1 with
      | nil =>
        simp only [List.nil_append] at heq
        injection heq with h1 h2
        refine ⟨[], c :: rest, ?_, by simp, ?_⟩
        · rw [List.nil_append, hdef, ← h1]
        · intro x hx
          rw [hdef]
          rcases List.mem_cons.mp hx with hxc | hx1
          · rw [hxc, ← h1]
            exact h
          · rw [h2] at hx1
            exact hle x hx1
      | cons a l1' =>
        simp only [List.cons_append] at heq
        injection heq with h1 h2
        refine ⟨best :: c :: l1', l2, ?_, ?_, ?_⟩
        · rw [hdef]
          simp only [List.cons_append]
          rw [← h2]
        · intro x hx
          rw [hdef]
          have hrb := hlt a (List.mem_cons_self a l1')
          rw [← h1] at hrb
          rcases List.mem_cons.mp hx with hxb | hx2
          · rw [hxb]
            exact hrb
          · rcases List.mem_cons.mp hx2 with hxc | hx3
            · rw [hxc]
              exact lt_of_lt_of_le hrb h
            · exact hlt x (List.mem_cons_of_mem a hx3)
        · intro x hx
          rw [hdef]
          exact hle x hx

lemma edgeCandidates_cons (v : Point) (rest : List Point) (target : Point) :
    ∃ c0 cs, edgeCandidates (v :: rest) target = c0 :: cs
      ∧ closestPointOnSimplePolygonToTarget (v :: rest) target = trackMin target c0 cs := by
  cases rest with
  | nil => exact ⟨_, _, rfl, rfl⟩
  | cons w ws => exact ⟨_, _, rfl, rfl⟩

/-! Concrete states used to instantiate theorems with hypotheses. -/

/-- Editor state with one two-vertex polygon and the move tool active. -/
def demoMoveState : EditorState :=
  { activeTool := Tool.move
    polygons := [[(1, 2), (3, 4)]]
    selectedIndex := -1
    mouseCoordsInSVG := none
    dragState := none }

/-- Editor state with the square tool active and the pointer at (100, 100). -/
def demoSquareState : EditorState :=
  { activeTool := Tool.square
    polygons := []
    selectedIndex := -1
    mouseCoordsInSVG := some (100, 100)
    dragState := none }

/-! Claim theorems. -/

/-- C4: setActiveTool sets activeTool to the given tool; when the tool is
not the select tool it also resets selectedIndex to -1, and when it is the
select tool it leaves selectedIndex unchanged. -/
theorem setActiveTool_spec (s : EditorState) (t : Tool) :
    (setActiveTool s t).activeTool = t
    ∧ (t ≠ Tool.select → (setActiveTool s t).selectedIndex = -1)
    ∧ (t = Tool.select → (setActiveTool s t).selectedIndex = s.selectedIndex) := by
  rw [setActiveTool_eq]
  refine ⟨rfl, ?_, ?_⟩
  · intro h
    simp [h]
  · intro h
    simp [h]

theorem setActiveTool_spec_witness :
    ((setActiveTool initialState Tool.move).activeTool = Tool.move
      ∧ (setActiveTool initialState Tool.move).selectedIndex = -1)
    ∧ (setActiveTool initialState Tool.select).selectedIndex = initialState.selectedIndex :=
  ⟨⟨(setActiveTool_spec initialState Tool.move).1,
    (setActiveTool_spec initialState Tool.move).2.1 (by decide)⟩,
   (setActiveTool_spec initialState Tool.select).2.2 rfl⟩

/-- C8: setActiveTool leaves polygons, the pointer position, and any
in-progress drag state unchanged, for every tool and state. -/
theorem setActiveTool_frame_spec (s : EditorState) (t : Tool) :
    (setActiveTool s t).polygons = s.polygons
    ∧ (setActiveTool s t).mouseCoordsInSVG = s.mouseCoordsInSVG
    ∧ (setActiveTool s t).dragState = s.dragState := by
  rw [setActiveTool_eq]
  exact ⟨rfl, rfl, rfl⟩

/-- C7: pointerLeaveCanvas clears the drag state and the pointer position
in every state, and a subsequent pointerMove with no intervening
pointerDown leaves every polygon unchanged (the drag does not resume). -/
theorem pointerLeave_spec (s : EditorState) (c : Option Point) :
    (svgMouseLeave s).dragState = none
    ∧ (svgMouseLeave s).mouseCoordsInSVG = none
    ∧ (svgMouseMove (svgMouseLeave s) c).polygons = s.polygons := by
  refine ⟨rfl, rfl, ?_⟩
  rw [svgMouseMove_polygons_of_dragState_none _ _ rfl]
  rfl

/-- C1: beginning a move-tool drag on a valid polygon index with the
pointer at p0 and then moving the pointer to p1 translates exactly the
dragged polygon's vertices by p1 - p0 (each vertex i becomes the recorded
offset vertex - p0 plus p1) and leaves every other polygon unchanged. -/
theorem drag_translation_spec (s : EditorState) (k : Int) (p0 p1 : Point)
    (ht : s.activeTool = Tool.move) (hk0 : 0 ≤ k) (hk : k < (s.polygons.length : Int)) :
    ((svgMouseMove (svgMouseDown s k (some p0)) (some p1)).polygons.length
        = s.polygons.length)
    ∧ ((svgMouseMove (svgMouseDown s k (some p0)) (some p1)).polygons.getD k.toNat []
        = (s.polygons.getD k.toNat []).map
            (fun v => (v.1 + (p1.1 - p0.1), v.2 + (p1.2 - p0.2))))
    ∧ (∀ j : ℕ, (j : Int) ≠ k →
        (svgMouseMove (svgMouseDown s k (some p0)) (some p1)).polygons.getD j []
          = s.polygons.getD j []) := by
  have hkn : k.toNat < s.polygons.length := by omega
  have h1 := svgMouseDown_active_eq s k p0 ht hk0 hk
  have h2 := svgMouseMove_active_eq
    { s with dragState := some ⟨k, (s.polygons.getD k.toNat []).map
        (fun v => (v.1 - p0.1, v.2 - p0.2))⟩ }
    ⟨k, (s.polygons.getD k.toNat []).map (fun v => (v.1 - p0.1, v.2 - p0.2))⟩
    p1 ht rfl hk0 hk
  rw [h1, h2]
  dsimp only
  refine ⟨by simp, ?_, ?_⟩
  · rw [getD_set_self hkn, dragPolyUpdate_of_map_sub]
  · intro j hj
    exact getD_set_ne (by omega) _ _

theorem drag_translation_spec_witness :
    (demoMoveState.activeTool = Tool.move ∧ (0 : Int) ≤ 0
      ∧ (0 : Int) < (demoMoveState.polygons.length : Int))
    ∧ (svgMouseMove (svgMouseDown demoMoveState 0 (some (0, 0))) (some (10, 5))).polygons.getD
        (0 : Int).toNat []
      = (demoMoveState.polygons.getD (0 : Int).toNat []).map
          (fun v => (v.1 + ((10 : ℚ) - 0), v.2 + ((5 : ℚ) - 0))) :=
  ⟨⟨rfl, by decide, by decide⟩,
   (drag_translation_spec demoMoveState 0 (0, 0) (10, 5) rfl (by decide) (by decide)).2.1⟩

/-- C6: during an active move-tool drag whose stored offsets and dragged
polygon may have different lengths, a pointerMove with a present pointer
rewrites only the first min(len(offsets), len(vertices)) vertices from the
offsets, keeps every later vertex and the polygon's length, and leaves
every other polygon untouched; the operation is total, so no error is
raised. -/
theorem drag_mismatch_clamp_spec (s : EditorState) (d : DragState) (p : Point)
    (ht : s.activeTool = Tool.move) (hd : s.dragState = some d)
    (hk0 : 0 ≤ d.polyIndex) (hk : d.polyIndex < (s.polygons.length : Int)) :
    ((svgMouseMove s (some p)).polygons.length = s.polygons.length)
    ∧ ((svgMouseMove s (some p)).polygons.getD d.polyIndex.toNat []).length
        = (s.polygons.getD d.polyIndex.toNat []).length
    ∧ (∀ i : ℕ, i < min d.relCoords.length (s.polygons.getD d.polyIndex.toNat []).length →
        ((svgMouseMove s (some p)).polygons.getD d.polyIndex.toNat []).getD i (0, 0)
          = ((d.relCoords.getD i (0, 0)).1 + p.1, (d.relCoords.getD i (0, 0)).2 + p.2))
    ∧ (∀ i : ℕ, min d.relCoords.length (s.polygons.getD d.polyIndex.toNat []).length ≤ i →
        ((svgMouseMove s (some p)).polygons.getD d.polyIndex.toNat []).getD i (0, 0)
          = (s.polygons.getD d.polyIndex.toNat []).getD i (0, 0))
    ∧ (∀ j : ℕ, (j : Int) ≠ d.polyIndex →
        (svgMouseMove s (some p)).polygons.getD j [] = s.polygons.getD j []) := by
  have hkn : d.polyIndex.toNat < s.polygons.length := by omega
  rw [svgMouseMove_active_eq s d p ht hd hk0 hk]
  dsimp only
  refine ⟨by simp, ?_, ?_, ?_, ?_⟩
  · rw [getD_set_self hkn, dragPolyUpdate_length]
  · intro i hi
    rw [getD_set_self hkn, dragPolyUpdate_getD_lt _ _ _ hi]
  · intro i hi
    rw [getD_set_self hkn, dragPolyUpdate_getD_ge _ _ _ hi]
  · intro j hj
    exact getD_set_ne (by omega) _ _

theorem drag_mismatch_clamp_spec_witness :
    (demoMoveState.activeTool = Tool.move
      ∧ ({ demoMoveState with dragState := some ⟨0, [(10, 10), (20, 20), (30, 30)]⟩ }
          : EditorState).dragState = some ⟨0, [(10, 10), (20, 20), (30, 30)]⟩)
    ∧ (∀ i : ℕ,
        min ([((10 : ℚ), (10 : ℚ)), (20, 20), (30, 30)] : Polygon).length
          (({ demoMoveState with dragState := some ⟨0, [(10, 10), (20, 20), (30, 30)]⟩ }
            : EditorState).polygons.getD (0 : Int).toNat []).length ≤ i →
        ((svgMouseMove { demoMoveState with
            dragState := some ⟨0, [(10, 10), (20, 20), (30, 30)]⟩ } (some (5, 5))).polygons.getD
              (0 : Int).toNat []).getD i (0, 0)
          = (({ demoMoveState with dragState := some ⟨0, [(10, 10), (20, 20), (30, 30)]⟩ }
              : EditorState).polygons.getD (0 : Int).toNat []).getD i (0, 0)) :=
  ⟨⟨rfl, rfl⟩,
   (drag_mismatch_clamp_spec
      { demoMoveState with dragState := some ⟨0, [(10, 10), (20, 20), (30, 30)]⟩ }
      ⟨0, [(10, 10), (20, 20), (30, 30)]⟩ (5, 5) rfl rfl (by decide) (by decide)).2.2.2.1⟩

/-- C9: during a drag the dragged polygon's coordinates depend only on the
stored drag-start offsets and the current pointer position: pointerMove
never alters the stored drag state, repeating a pointerMove at the same
present point is idempotent on the whole state, and moving the pointer
back to the drag-start position restores the polygon list exactly. -/
theorem drag_offsets_functional_spec :
    (∀ (s : EditorState) (c : Option Point), (svgMouseMove s c).dragState = s.dragState)
    ∧ (∀ (s : EditorState) (p : Point),
        svgMouseMove (svgMouseMove s (some p)) (some p) = svgMouseMove s (some p))
    ∧ (∀ (s : EditorState) (k : Int) (p0 p1 : Point),
        s.activeTool = Tool.move → 0 ≤ k → k < (s.polygons.length : Int) →
        (svgMouseMove (svgMouseMove (svgMouseDown s k (some p0)) (some p1))
            (some p0)).polygons = s.polygons) := by
  refine ⟨?_, ?_, ?_⟩
  · intro s c
    exact (svgMouseMove_fields s c).2.2.1
  · intro s p
    by_cases ht : s.activeTool = Tool.move
    · rcases hd : s.dragState with _ | d
      · rw [svgMouseMove_eq_of_dragState_none s (some p) hd,
          svgMouseMove_eq_of_dragState_none { s with mouseCoordsInSVG := some p }
            (some p) hd]
      · by_cases hrange : 0 ≤ d.polyIndex ∧ d.polyIndex < (s.polygons.length : Int)
        · have hkn : d.polyIndex.toNat < s.polygons.length := by omega
          have h1 := svgMouseMove_active_eq s d p ht hd hrange.1 hrange.2
          rw [h1]
          have h2 := svgMouseMove_active_eq
            { s with mouseCoordsInSVG := some p,
                     polygons := s.polygons.set d.polyIndex.toNat
                       (dragPolyUpdate d.relCoords (s.polygons.getD d.polyIndex.toNat []) p) }
            d p ht hd
            hrange.1 (by simpa using hrange.2)
          rw [h2]
          dsimp only
          rw [getD_set_self hkn, dragPolyUpdate_idem, List.set_set]
        · rw [svgMouseMove_eq_of_out_of_range s d p hd hrange,
            svgMouseMove_eq_of_out_of_range { s with mouseCoordsInSVG := some p }
              d p hd hrange]
    · rw [svgMouseMove_eq_of_not_move s (some p) ht,
        svgMouseMove_eq_of_not_move { s with mouseCoordsInSVG := some p } (some p) ht]
  · intro s k p0 p1 ht hk0 hk
    have hkn : k.toNat < s.polygons.length := by omega
    have h1 := svgMouseDown_active_eq s k p0 ht hk0 hk
    have h2 := svgMouseMove_active_eq
      { s with dragState := some ⟨k, (s.polygons.getD k.toNat []).map
          (fun v => (v.1 - p0.1, v.2 - p0.2))⟩ }
      ⟨k, (s.polygons.getD k.toNat []).map (fun v => (v.1 - p0.1, v.2 - p0.2))⟩
      p1 ht rfl hk0 hk
    rw [h1, h2]
    have h3 := svgMouseMove_active_eq
      { s with mouseCoordsInSVG := some p1,
               polygons := s.polygons.set k.toNat
                 (dragPolyUpdate ((s.polygons.getD k.toNat []).map
                     (fun v => (v.1 - p0.1, v.2 - p0.2)))
                   (s.polygons.getD k.toNat []) p1),
               dragState := some ⟨k, (s.polygons.getD k.toNat []).map
                 (fun v => (v.1 - p0.1, v.2 - p0.2))⟩ }
      ⟨k, (s.polygons.getD k.toNat []).map (fun v => (v.1 - p0.1, v.2 - p0.2))⟩
      p0 ht rfl hk0 (by simpa using hk)
    rw [h3]
    dsimp only
    rw [getD_set_self hkn, dragPolyUpdate_restore _ _ _ (dragPolyUpdate_length _ _ _),
      List.set_set, set_getD_self]

theorem drag_offsets_functional_spec_witness :
    (demoMoveState.activeTool = Tool.move ∧ (0 : Int) ≤ 0
      ∧ (0 : Int) < (demoMoveState.polygons.length : Int))
    ∧ (svgMouseMove (svgMouseMove (svgMouseDown demoMoveState 0 (some (0, 0)))
          (some (10, 5))) (some (0, 0))).polygons = demoMoveState.polygons :=
  ⟨⟨rfl, by decide, by decide⟩,
   drag_offsets_functional_spec.2.2 demoMoveState 0 (0, 0) (10, 5) rfl (by decide) (by decide)⟩

/-- C5: for a nonempty polygon, closestPointOnSimplePolygonToTarget
returns a candidate from the projection-and-clamp closest points on the
cyclic boundary edges such that every earlier candidate is strictly
farther from the target and every later candidate is at least as far
(minimum distance, first edge winning ties); a single-vertex polygon
yields that vertex, and the 10x10 square with target (5, -5) yields
(5, 0). -/
theorem closestPoint_spec :
    (∀ (poly : Polygon) (target : Point), poly ≠ [] →
      ∃ l1 l2,
        edgeCandidates poly target
          = l1 ++ closestPointOnSimplePolygonToTarget poly target :: l2
        ∧ (∀ c ∈ l1,
            distSq (closestPointOnSimplePolygonToTarget poly target) target
              < distSq c target)
        ∧ (∀ c ∈ l2,
            distSq (closestPointOnSimplePolygonToTarget poly target) target
              ≤ distSq c target))
    ∧ (∀ v target : Point, closestPointOnSimplePolygonToTarget [v] target = v)
    ∧ closestPointOnSimplePolygonToTarget [(0, 0), (10, 0), (10, 10), (0, 10)] (5, -5)
        = (5, 0) := by
  refine ⟨?_, ?_, ?_⟩
  · intro poly target hne
    match poly with
    | v :: rest =>
      obtain ⟨c0, cs, hE, hC⟩ := edgeCandidates_cons v rest target
      rw [hE, hC]
      exact trackMin_firstMin target cs c0
  · intro v target
    simp [closestPointOnSimplePolygonToTarget, edgeCandidates, polygonEdges, trackMin,
      closestPointOnSegment]
  · norm_num [closestPointOnSimplePolygonToTarget, edgeCandidates, polygonEdges, trackMin,
      closestPointOnSegment, distSq]

theorem closestPoint_spec_witness :
    ([((3 : ℚ), (4 : ℚ))] ≠ ([] : Polygon))
    ∧ (∃ l1 l2,
        edgeCandidates [((3 : ℚ), (4 : ℚ))] (0, 0)
          = l1 ++ closestPointOnSimplePolygonToTarget [((3 : ℚ), (4 : ℚ))] (0, 0) :: l2
        ∧ (∀ c ∈ l1,
            distSq (closestPointOnSimplePolygonToTarget [((3 : ℚ), (4 : ℚ))] (0, 0)) (0, 0)
              < distSq c (0, 0))
        ∧ (∀ c ∈ l2,
            distSq (closestPointOnSimplePolygonToTarget [((3 : ℚ), (4 : ℚ))] (0, 0)) (0, 0)
              ≤ distSq c (0, 0))) :=
  ⟨by decide, closestPoint_spec.1 [(3, 4)] (0, 0) (by decide)⟩

/-- C3: under an active shape tool with the pointer present at p, the
placement preview is the tool's base template translated by p, and a click
appends exactly one polygon equal by value to that preview at index equal
to the previous polygon count, increasing the count by one and leaving
every existing polygon unchanged. -/
theorem placementPreview_click_spec (s : EditorState) (p : Point) (i : Int)
    (hm : s.mouseCoordsInSVG = some p)
    (hshape : s.activeTool = Tool.triangle ∨ s.activeTool = Tool.square
      ∨ s.activeTool = Tool.hexagon) :
    ∃ base, BASE_POLYGONS s.activeTool = some base
      ∧ addPolyPreview s = some (base.map (fun v => (v.1 + p.1, v.2 + p.2)))
      ∧ (svgMouseClick s i).polygons
          = s.polygons ++ [base.map (fun v => (v.1 + p.1, v.2 + p.2))]
      ∧ (svgMouseClick s i).polygons.length = s.polygons.length + 1
      ∧ (svgMouseClick s i).polygons.getD s.polygons.length []
          = base.map (fun v => (v.1 + p.1, v.2 + p.2))
      ∧ (∀ j : ℕ, j < s.polygons.length →
          (svgMouseClick s i).polygons.getD j [] = s.polygons.getD j []) := by
  obtain ⟨base, hbase⟩ : ∃ b, BASE_POLYGONS s.activeTool = some b := by
    rcases hshape with h | h | h <;> rw [h] <;> exact ⟨_, rfl⟩
  have hprev : addPolyPreview s = some (base.map (fun v => (v.1 + p.1, v.2 + p.2))) := by
    rw [addPolyPreview_eq s p hm, hbase]
    rfl
  have hnotsel : s.activeTool ≠ Tool.select := by
    rcases hshape with h | h | h <;> rw [h] <;> decide
  have hclick := svgMouseClick_shape s i _ hnotsel hprev
  refine ⟨base, hbase, hprev, ?_, ?_, ?_, ?_⟩
  · rw [hclick, clonePolygon_eq]
  · rw [hclick]
    simp
  · rw [hclick, clonePolygon_eq]
    dsimp only
    rw [List.getD_append_right _ _ _ _ le_rfl]
    simp
  · intro j hj
    rw [hclick]
    dsimp only
    rw [List.getD_append _ _ _ _ hj]

theorem placementPreview_click_spec_witness :
    demoSquareState.mouseCoordsInSVG = some (100, 100)
    ∧ ∃ base, BASE_POLYGONS demoSquareState.activeTool = some base
      ∧ addPolyPreview demoSquareState
          = some (base.map (fun v => (v.1 + (100 : ℚ), v.2 + (100 : ℚ))))
      ∧ (svgMouseClick demoSquareState 0).polygons
          = demoSquareState.polygons
            ++ [base.map (fun v => (v.1 + (100 : ℚ), v.2 + (100 : ℚ)))]
      ∧ (svgMouseClick demoSquareState 0).polygons.length
          = demoSquareState.polygons.length + 1
      ∧ (svgMouseClick demoSquareState 0).polygons.getD demoSquareState.polygons.length []
          = base.map (fun v => (v.1 + (100 : ℚ), v.2 + (100 : ℚ)))
      ∧ (∀ j : ℕ, j < demoSquareState.polygons.length →
          (svgMouseClick demoSquareState 0).polygons.getD j []
            = demoSquareState.polygons.getD j []) :=
  ⟨rfl, placementPreview_click_spec demoSquareState (100, 100) 0 rfl
    (Or.inr (Or.inl rfl))⟩

/-! Helper lemmas for the selection invariant. -/

lemma step_selValid (s : EditorState) (op : Op) (hs : selValid s)
    (hop : (match op with
      | Op.click i => decide (i < (s.polygons.length : Int))
      | _ => true) = true) :
    selValid (step s op) := by
  cases op with
  | setActiveTool t =>
    show selValid (setActiveTool s t)
    rw [setActiveTool_eq]
    unfold selValid at *
    dsimp only
    by_cases h : t = Tool.select
    · rw [if_pos h]
      exact hs
    · rw [if_neg h]
      exact Or.inl rfl
  | pointerMove c =>
    show selValid (svgMouseMove s c)
    unfold selValid at *
    rw [(svgMouseMove_fields s c).2.1, svgMouseMove_length]
    exact hs
  | pointerDown i c =>
    show selValid (svgMouseDown s i c)
    unfold selValid at *
    rw [(svgMouseDown_fields s i c).2.2.1, (svgMouseDown_fields s i c).2.1]
    exact hs
  | pointerUp => exact hs
  | pointerLeave => exact hs
  | click i =>
    show selValid (svgMouseClick s i)
    rw [decide_eq_true_eq] at hop
    by_cases hts : s.activeTool = Tool.select
    · by_cases hi : 0 ≤ i
      · rw [svgMouseClick_select_nonneg s i hts hi]
        unfold selValid
        dsimp only
        exact Or.inr ⟨hi, hop⟩
      · rw [svgMouseClick_select_neg s i hts hi]
        exact hs
    · have hsel := svgMouseClick_selectedIndex_not_select s i hts
      have hlen := svgMouseClick_length_mono s i
      unfold selValid at hs ⊢
      rw [hsel]
      rcases hs with h | ⟨h1, h2⟩
      · exact Or.inl h
      · exact Or.inr ⟨h1, lt_of_lt_of_le h2 (by exact_mod_cast hlen)⟩

/-- C2 counterexample: from the initial state, activating the select tool
and clicking with hit index 5 while no polygon exists sets selectedIndex
to 5, which is neither -1 nor a valid index into polygons, so the claimed
reachability invariant fails and an out-of-range click does change the
selection. -/
theorem selValid_counterexample :
    (applyOps initialState [Op.setActiveTool Tool.select, Op.click 5]).selectedIndex = 5
    ∧ (applyOps initialState [Op.setActiveTool Tool.select, Op.click 5]).polygons = []
    ∧ ¬ selValid (applyOps initialState [Op.setActiveTool Tool.select, Op.click 5]) := by
  refine ⟨by decide, by decide, ?_⟩
  unfold selValid
  decide

/-- C2 amended: the initial state satisfies the selection invariant, the
invariant is preserved along any trace whose clicks always carry a hit
index below the polygon count at the moment of the click (negative misses
included), and a click with a negative hit index never changes
selectedIndex; a select-tool click with a nonnegative out-of-range index,
however, stores that index (see the counterexample). -/
theorem selValid_guarded_spec :
    selValid initialState
    ∧ (∀ (s : EditorState) (ops : List Op),
        selValid s → validHits s ops = true → selValid (applyOps s ops))
    ∧ (∀ (s : EditorState) (i : Int), i < 0 →
        (svgMouseClick s i).selectedIndex = s.selectedIndex) := by
  refine ⟨Or.inl rfl, ?_, ?_⟩
  · intro s ops
    induction ops generalizing s with
    | nil =>
      intro hs _
      exact hs
    | cons op rest ih =>
      intro hs hv
      unfold validHits at hv
      rw [Bool.and_eq_true] at hv
      show selValid (applyOps (step s op) rest)
      exact ih (step s op) (step_selValid s op hs hv.1) hv.2
  · intro s i hi
    by_cases hts : s.activeTool = Tool.select
    · rw [svgMouseClick_select_neg s i hts (by omega)]
    · rw [svgMouseClick_selectedIndex_not_select s i hts]

theorem selValid_guarded_spec_witness :
    (selValid initialState
      ∧ validHits initialState [Op.setActiveTool Tool.select, Op.click (-1)] = true)
    ∧ selValid (applyOps initialState [Op.setActiveTool Tool.select, Op.click (-1)])
    ∧ ((-1 : Int) < 0
      ∧ (svgMouseClick initialState (-1)).selectedIndex = initialState.selectedIndex) :=
  ⟨⟨Or.inl rfl, by decide⟩,
   selValid_guarded_spec.2.1 initialState [Op.setActiveTool Tool.select, Op.click (-1)]
     (Or.inl rfl) (by decide),
   by decide, selValid_guarded_spec.2.2 initialState (-1) (by decide)⟩

/-- C10: no operation ever shrinks the polygon list; every operation other
than click and pointerMove leaves polygons untouched; a click either
leaves polygons unchanged or, under a shape tool, appends exactly one
polygon at the end; and a pointerMove preserves the length and every
polygon other than the one named by the active drag state. -/
theorem polygons_append_only_spec (s : EditorState) :
    (∀ op : Op, s.polygons.length ≤ (step s op).polygons.length)
    ∧ (∀ t, (setActiveTool s t).polygons = s.polygons)
    ∧ (∀ (i : Int) (c : Option Point), (svgMouseDown s i c).polygons = s.polygons)
    ∧ (svgMouseUp s).polygons = s.polygons
    ∧ (svgMouseLeave s).polygons = s.polygons
    ∧ (∀ i : Int, (svgMouseClick s i).polygons = s.polygons
        ∨ ((s.activeTool = Tool.triangle ∨ s.activeTool = Tool.square
             ∨ s.activeTool = Tool.hexagon)
           ∧ ∃ q, (svgMouseClick s i).polygons = s.polygons ++ [q]))
    ∧ (∀ c, (svgMouseMove s c).polygons.length = s.polygons.length)
    ∧ (∀ (c : Option Point) (j : ℕ),
        (∀ d, s.dragState = some d → (j : Int) ≠ d.polyIndex) →
        (svgMouseMove s c).polygons.getD j [] = s.polygons.getD j []) := by
  refine ⟨?_, ?_, ?_, rfl, rfl, ?_, svgMouseMove_length s, ?_⟩
  · intro op
    cases op with
    | setActiveTool t => rw [show (step s (Op.setActiveTool t)) = setActiveTool s t from rfl,
        setActiveTool_eq]
    | pointerMove c => rw [show (step s (Op.pointerMove c)) = svgMouseMove s c from rfl,
        svgMouseMove_length]
    | pointerDown i c => rw [show (step s (Op.pointerDown i c)) = svgMouseDown s i c from rfl,
        (svgMouseDown_fields s i c).2.1]
    | pointerUp => exact le_rfl
    | pointerLeave => exact le_rfl
    | click i => exact svgMouseClick_length_mono s i
  · intro t
    rw [setActiveTool_eq]
  · intro i c
    exact (svgMouseDown_fields s i c).2.1
  · intro i
    by_cases hts : s.activeTool = Tool.select
    · by_cases hi : 0 ≤ i
      · rw [svgMouseClick_select_nonneg s i hts hi]
        exact Or.inl rfl
      · rw [svgMouseClick_select_neg s i hts hi]
        exact Or.inl rfl
    · rcases hp : addPolyPreview s with _ | q
      · rw [svgMouseClick_nopreview s i hts hp]
        exact Or.inl rfl
      · refine Or.inr ⟨addPolyPreview_some_shape hp, clonePolygon q, ?_⟩
        rw [svgMouseClick_shape s i q hts hp]
  · intro c j hj
    rcases hd : s.dragState with _ | d
    · rw [svgMouseMove_polygons_of_dragState_none s c hd]
    · have hjd := hj d hd
      cases c with
      | none => rfl
      | some m =>
        by_cases ht : s.activeTool = Tool.move
        · by_cases hrange : 0 ≤ d.polyIndex ∧ d.polyIndex < (s.polygons.length : Int)
          · rw [svgMouseMove_active_eq s d m ht hd hrange.1 hrange.2]
            dsimp only
            exact getD_set_ne (by omega) _ _
          · rw [svgMouseMove_eq_of_out_of_range s d m hd hrange]
        · rw [svgMouseMove_eq_of_not_move s (some m) ht]

theorem polygons_append_only_spec_witness :
    (∀ d : DragState, initialState.dragState = some d → ((0 : ℕ) : Int) ≠ d.polyIndex)
    ∧ (svgMouseMove initialState (some (1, 1))).polygons.getD 0 []
        = initialState.polygons.getD 0 [] :=
  ⟨fun _ hd => by simp [initialState] at hd,
   (polygons_append_only_spec initialState).2.2.2.2.2.2.2 (some (1, 1)) 0
     (fun _ hd => by simp [initialState] at hd)⟩

end LyraEditor
